import Mathlib

/-!
Shallow embedding of `src/agency_swarm/tools/concurrency_v2.py`
(GlobalConcurrencyManager, DeadlockDetector, ConflictPatternDetector,
ConcurrencyEventManager) and proofs about the claims of the
natural-language specification.

Modelling conventions:
* Python `dict` (insertion ordered, unique keys) → association list
  (`List (κ × α)`); `d[k] = v` updates in place when the key exists and
  appends otherwise; lookup scans from the front.
* Python `set` of strings → duplicate-free `List String` in insertion
  order (`setAdd` / `setErase` / membership).
* `time.time()` → the manager state field `now : Nat` counter (every read of
  the clock inside one operation yields the same instant).
* `uuid.uuid4()` → the manager state field `nextId : Nat` counter; ids are `Nat`.
* `threading.Lock` (non-reentrant) → an explicit `mutexHeld : Bool`
  argument; `with self._locks_lock:` while the same task already holds
  the mutex blocks forever, which is modelled as the `Option.none`
  (divergence) outcome.
* Python `sorted(..., key=f)` → `List.mergeSort` on the decidable key
  order (both are stable sorts ordered by the key).
* Python `max(..., key=f)` → `pyMaxBy` (first maximal element wins),
  `min` → `pyMinBy` (first minimal element wins).
* `deque(maxlen=n)` → `dequeAppend n` (append, dropping oldest beyond n).
-/

-- ===========================================================================
-- Enums and constants (concurrency_v2.py lines 25-46)
-- ===========================================================================

inductive ExecutionStage where
  | acquired
  | executing
  | releasing
deriving DecidableEq, Repr

inductive ConflictType where
  | deadlock
  | timeout
  | resourceExhaustion
  | priorityInversion
deriving DecidableEq, Repr

inductive DeadlockResolutionStrategy where
  | priorityBased
  | youngestFirst
  | oldestFirst
  | randomVictim
  | manualIntervention
deriving DecidableEq, Repr

/-- The `.value` string of each `DeadlockResolutionStrategy` member. -/
def strategyValue : DeadlockResolutionStrategy → String
  | .priorityBased => "priority"
  | .youngestFirst => "youngest"
  | .oldestFirst => "oldest"
  | .randomVictim => "random"
  | .manualIntervention => "manual"

-- ===========================================================================
-- Data models (concurrency_v2.py lines 53-233)
-- ===========================================================================

structure PendingLockRequest where
  requestId : Nat
  agentName : String
  toolName : String
  priority : Int
  requestedAt : Nat
  retryCount : Nat
  timeoutSeconds : Nat
deriving DecidableEq, Repr

instance : Inhabited PendingLockRequest :=
  ⟨{ requestId := 0, agentName := "", toolName := "", priority := 0,
     requestedAt := 0, retryCount := 0, timeoutSeconds := 0 }⟩

structure AgentLockState where
  agentName : String
  toolName : String
  lockId : Nat
  acquiredAt : Nat
  expiresAt : Option Nat
  priority : Int
  ownerThreadId : Option Nat
  retryCount : Nat
  waitingQueue : List PendingLockRequest
  executionStage : ExecutionStage
deriving DecidableEq, Repr

structure LockEvent where
  eventId : Nat
  timestamp : Nat
  eventType : String
  agentName : String
  toolName : String
  lockId : Nat
  details : List (String × String)
deriving DecidableEq, Repr

structure ConflictEvent where
  conflictId : Nat
  timestamp : Nat
  conflictType : ConflictType
  involvedAgents : List String
  description : String
  resolution : Option String
  autoResolved : Bool
  resolvedAt : Option Nat
deriving DecidableEq, Repr

structure ConflictPattern where
  agentA : String
  agentB : String
  conflictCount : Nat
  lastConflict : Nat
  avgResolutionTime : ℚ
deriving DecidableEq, Repr

-- ===========================================================================
-- Generic container helpers (Python dict / set / deque semantics)
-- ===========================================================================

/-- First value stored under key `k` in an association list (Python dict
lookup; dicts keep keys unique so the first hit is the only hit). -/
def alistLookup {κ α : Type} [DecidableEq κ] (m : List (κ × α)) (k : κ) : Option α :=
  (m.find? (fun p => p.1 = k)).map (·.2)

/-- Replace the value stored under key `k`, keeping its position
(Python `d[k] = v` when `k` is already present). -/
def alistUpdate {κ α : Type} [DecidableEq κ] (m : List (κ × α)) (k : κ) (v : α) :
    List (κ × α) :=
  m.map (fun p => if p.1 = k then (k, v) else p)

/-- Python `d[k] = v`: update in place when present, append otherwise. -/
def alistInsert {κ α : Type} [DecidableEq κ] (m : List (κ × α)) (k : κ) (v : α) :
    List (κ × α) :=
  if (alistLookup m k).isSome then alistUpdate m k v else m ++ [(k, v)]

/-- Python `set.add` on an insertion-ordered duplicate-free list. -/
def setAdd (s : List String) (x : String) : List String :=
  if x ∈ s then s else s ++ [x]

/-- Python `set.discard` / `set.remove` (first occurrence; sets hold at
most one). -/
def setErase : List String → String → List String
  | [], _ => []
  | y :: ys, x => if y = x then ys else y :: setErase ys x

/-- Python `list.index` (the call sites guarantee membership). -/
def pyIndex (x : String) : List String → Nat
  | [] => 0
  | y :: ys => if y = x then 0 else pyIndex x ys + 1

/-- Model of `collections.deque(maxlen := cap)` append: drop from the front once
the capacity is exceeded. -/
def dequeAppend {α : Type} (cap : Nat) (xs : List α) (x : α) : List α :=
  let ys := xs ++ [x]
  if cap < ys.length then ys.drop (ys.length - cap) else ys

/-- Python `max(l, key := f)`: the first element attaining the maximal
key (later elements replace the champion only on a strict increase). -/
def pyMaxBy {α : Type} (key : α → Int) : List α → Option α
  | [] => none
  | x :: xs => some (xs.foldl (fun best y => if key best < key y then y else best) x)

/-- Python `min(l, key := f)`: the first element attaining the minimal key. -/
def pyMinBy {α : Type} (key : α → Int) : List α → Option α
  | [] => none
  | x :: xs => some (xs.foldl (fun best y => if key y < key best then y else best) x)

-- ===========================================================================
-- DeadlockDetector (concurrency_v2.py lines 240-328)
-- ===========================================================================

/-- Model of `DeadlockDetector.wait_for_graph`: agent → set of agents it waits for.
Insertion-ordered dict of insertion-ordered duplicate-free sets. -/
abbrev WaitForGraph : Type := List (String × List String)

/-- Neighbour set of `node` (`self.wait_for_graph.get(node, set())`). -/
def neighborsOf (g : WaitForGraph) (node : String) : List String :=
  (alistLookup g node).getD []

/-- Whether the graph currently holds the edge `a → b`. -/
def hasEdge (g : WaitForGraph) (a b : String) : Bool :=
  b ∈ neighborsOf g a

/-- Model of `DeadlockDetector.update_wait_for_graph(waiting_agent, blocking_agent)`. -/
def updateWaitForGraph (g : WaitForGraph) (waitingAgent blockingAgent : String) :
    WaitForGraph :=
  let g' : WaitForGraph :=
    if (alistLookup g waitingAgent).isSome then g else g ++ [(waitingAgent, [])]
  g'.map (fun p => if p.1 = waitingAgent then (p.1, setAdd p.2 blockingAgent) else p)

/-- Model of `DeadlockDetector.remove_from_graph(agent)`: delete the agent entry with its
entry (outgoing edges) and discard it from every remaining neighbour set
(incoming edges). -/
def removeFromGraph (g : WaitForGraph) (agent : String) : WaitForGraph :=
  (g.filter (fun p => p.1 ≠ agent)).map (fun p => (p.1, setErase p.2 agent))

/-- Mutable state of the DFS in `DeadlockDetector.detect_cycles`. -/
structure DfsState where
  visited : List String
  recStack : List String
  path : List String
  cycles : List (List String)
deriving DecidableEq, Repr

/-- The inner `dfs(node)` closure of `DeadlockDetector.detect_cycles`.
`fuel` only bounds the recursion depth (the Python recursion terminates
because `dfs` is only entered on unvisited nodes); every theorem below
holds for all fuel values, and concrete runs receive ample fuel. The
`for neighbor in ...` loop with its early `return True` is rendered as a
left fold whose accumulator keeps the `(returned, state)` pair and skips
the remaining neighbours once `returned` is true — the same control flow
as the Python early return. -/
def dfs (g : WaitForGraph) : Nat → String → DfsState → Bool × DfsState
  | 0, _, st => (false, st)
  | fuel + 1, node, st =>
    let st₁ : DfsState :=
      { st with visited := setAdd st.visited node,
                recStack := setAdd st.recStack node,
                path := st.path ++ [node] }
    let res := (neighborsOf g node).foldl
      (fun acc n =>
        if acc.1 then acc
        else if n ∉ acc.2.visited then dfs g fuel n acc.2
        else if n ∈ acc.2.recStack then
          (true, { acc.2 with
                   cycles := acc.2.cycles
                     ++ [acc.2.path.drop (pyIndex n acc.2.path) ++ [n]] })
        else (false, acc.2))
      (false, st₁)
    if res.1 then (true, res.2)
    else (false, { res.2 with path := res.2.path.dropLast,
                              recStack := setErase res.2.recStack node })

/-- Ample fuel for a complete traversal of `g`. -/
def dfsFuel (g : WaitForGraph) : Nat :=
  g.length + (g.map (fun p => p.2.length)).sum + 1

/-- Model of `DeadlockDetector.detect_cycles`: run the DFS from every not-yet
visited key of the graph (insertion order) and collect the emitted
cycles. Note the Python code does not reset `path`/`rec_stack` between
the outer calls when a previous call returned early. -/
def detectCycles (g : WaitForGraph) : List (List String) :=
  let finalState := (g.map (·.1)).foldl
    (fun st node => if node ∈ st.visited then st else (dfs g (dfsFuel g) node st).2)
    { visited := [], recStack := [], path := [], cycles := [] }
  finalState.cycles

/-- Every emitted entry is nonempty and starts and ends with the same
(grey) node. -/
def cyclesWellFormed (cs : List (List String)) : Prop :=
  ∀ c ∈ cs, c ≠ [] ∧ c.head? = c.getLast?

/-- Invariant of the DFS state: all emitted cycles are well formed, the
recursion stack is contained in the path, and the recursion stack is
contained in the visited set. -/
def DfsInv (st : DfsState) : Prop :=
  cyclesWellFormed st.cycles
    ∧ (∀ x ∈ st.recStack, x ∈ st.path)
    ∧ (∀ x ∈ st.recStack, x ∈ st.visited)

/-- Relation between the state before and after one `dfs`/`dfsNeighbors`
call returning `b`: the invariant is maintained, the visited set only
grows, and a `false` return restores path, recursion stack, and cycles. -/
def DfsPost (st st' : DfsState) (b : Bool) : Prop :=
  DfsInv st'
    ∧ (∀ x ∈ st.visited, x ∈ st'.visited)
    ∧ (b = false →
        st'.path = st.path ∧ st'.recStack = st.recStack ∧ st'.cycles = st.cycles)

-- ===========================================================================
-- ConflictPatternDetector (concurrency_v2.py lines 335-384)
-- ===========================================================================

structure PatternDetectorState where
  conflictMatrix : List ((String × String) × Nat)
  resolutionTimes : List ((String × String) × List Nat)
  lastConflict : List ((String × String) × Nat)
deriving DecidableEq, Repr

def PatternDetectorState.init : PatternDetectorState :=
  { conflictMatrix := [], resolutionTimes := [], lastConflict := [] }

/-- Model of `tuple(sorted([agent_a, agent_b]))`. -/
def sortPair (a b : String) : String × String :=
  if a ≤ b then (a, b) else (b, a)

/-- Model of `ConflictPatternDetector.record_conflict(agent_a, agent_b, resolution_time)`
(a definition the manager never invokes — see the C9 theorems). -/
def recordConflict (st : PatternDetectorState) (now : Nat)
    (agentA agentB : String) (resolutionTime : Nat) : PatternDetectorState :=
  let key := sortPair agentA agentB
  { conflictMatrix :=
      alistInsert st.conflictMatrix key ((alistLookup st.conflictMatrix key).getD 0 + 1),
    resolutionTimes :=
      alistInsert st.resolutionTimes key
        ((alistLookup st.resolutionTimes key).getD [] ++ [resolutionTime]),
    lastConflict := alistInsert st.lastConflict key now }

/-- Model of `ConflictPatternDetector.get_hotspots(top_n)`: stable sort of the
matrix entries by count descending (Python `sorted(..., reverse=True)` is
a stable sort, modelled by the stable `List.insertionSort`), truncate,
and build the patterns. -/
def getHotspots (st : PatternDetectorState) (now : Nat) (topN : Nat) :
    List ConflictPattern :=
  let sortedConflicts :=
    (st.conflictMatrix.insertionSort (fun x y => y.2 ≤ x.2)).take topN
  sortedConflicts.map (fun p =>
    let times := (alistLookup st.resolutionTimes p.1).getD []
    let avgTime : ℚ := if times = [] then 0 else (times.sum : ℚ) / times.length
    { agentA := p.1.1, agentB := p.1.2, conflictCount := p.2,
      lastConflict := (alistLookup st.lastConflict p.1).getD now,
      avgResolutionTime := avgTime })

-- ===========================================================================
-- ConcurrencyEventManager (concurrency_v2.py lines 391-442)
-- ===========================================================================

/-- History capacity of both event deques (`history_size = 1000`). -/
def historySize : Nat := 1000

-- ===========================================================================
-- GlobalConcurrencyManager (concurrency_v2.py lines 449-824)
-- ===========================================================================

/-- The mutable state reachable from a `GlobalConcurrencyManager`
instance (lock table, deadlock detector graph, pattern detector maps,
event histories, analytics samples) together with the modelled clock and
fresh-id counter. -/
structure ManagerState where
  locksByAgent : List (String × AgentLockState)
  waitForGraph : WaitForGraph
  patternState : PatternDetectorState
  lockHistory : List LockEvent
  conflictHistory : List ConflictEvent
  lockDurations : List Nat
  now : Nat
  nextId : Nat
deriving DecidableEq, Repr

def ManagerState.init : ManagerState :=
  { locksByAgent := [], waitForGraph := [], patternState := PatternDetectorState.init,
    lockHistory := [], conflictHistory := [], lockDurations := [], now := 0, nextId := 1 }

/-- Model of `ConcurrencyEventManager.record_lock_event` (history append; callback
fan-out carries no state). -/
def recordLockEvent (s : ManagerState) (e : LockEvent) : ManagerState :=
  { s with lockHistory := dequeAppend historySize s.lockHistory e }

/-- Model of `ConcurrencyEventManager.record_conflict_event`. -/
def recordConflictEvent (s : ManagerState) (e : ConflictEvent) : ManagerState :=
  { s with conflictHistory := dequeAppend historySize s.conflictHistory e }

/-- Model of `lock_key = f"{agent_name}:{tool_name}"`. -/
def lockKey (agentName toolName : String) : String :=
  agentName ++ ":" ++ toolName

/-- Outcome of `GlobalConcurrencyManager.acquire_lock`. -/
inductive AcquireResult where
  | ok (lockId : Nat)
  | timeoutError (msg : String)
deriving DecidableEq, Repr

/-- Model of `GlobalConcurrencyManager.acquire_lock(agent_name, tool_name, priority,
timeout, owner_thread_id)`. Note the queued branch of the source appends a
pending request, adds the wait-for edge, records a QUEUED event and then
immediately raises `asyncio.TimeoutError` — it never suspends. -/
def acquireLock (s : ManagerState) (agentName toolName : String)
    (priority : Int) (timeout : Nat) (ownerThreadId : Option Nat) :
    AcquireResult × ManagerState :=
  let key := lockKey agentName toolName
  let lockId := s.nextId
  let acquiredAt := s.now
  let s₀ := { s with nextId := s.nextId + 1 }
  match alistLookup s₀.locksByAgent key with
  | some existingLock =>
    let request : PendingLockRequest :=
      { requestId := s₀.nextId, agentName := agentName, toolName := toolName,
        priority := priority, requestedAt := s₀.now, retryCount := 0,
        timeoutSeconds := timeout }
    let updatedLock :=
      { existingLock with waitingQueue := existingLock.waitingQueue ++ [request] }
    let s₁ :=
      { s₀ with nextId := s₀.nextId + 1,
                locksByAgent := alistUpdate s₀.locksByAgent key updatedLock,
                waitForGraph :=
                  updateWaitForGraph s₀.waitForGraph agentName existingLock.agentName }
    let s₂ := recordLockEvent s₁
      { eventId := s₁.nextId, timestamp := s₁.now, eventType := "queued",
        agentName := agentName, toolName := toolName, lockId := lockId,
        details := [("queue_position", toString updatedLock.waitingQueue.length)] }
    let s₃ := { s₂ with nextId := s₂.nextId + 1 }
    (.timeoutError ("Lock " ++ key ++ " is already held"), s₃)
  | none =>
    let lock : AgentLockState :=
      { agentName := agentName, toolName := toolName, lockId := lockId,
        acquiredAt := acquiredAt, expiresAt := none, priority := priority,
        ownerThreadId := ownerThreadId, retryCount := 0, waitingQueue := [],
        executionStage := .acquired }
    let s₁ := { s₀ with locksByAgent := s₀.locksByAgent ++ [(key, lock)] }
    let s₂ := recordLockEvent s₁
      { eventId := s₁.nextId, timestamp := s₁.now, eventType := "acquired",
        agentName := agentName, toolName := toolName, lockId := lockId,
        details := [("priority", toString priority)] }
    let s₃ := { s₂ with nextId := s₂.nextId + 1 }
    (.ok lockId, s₃)

/-- Model of `for key, l in self.locks_by_agent.items(): if l.lock_id == lock_id`. -/
def findLockByIdIn (m : List (String × AgentLockState)) (lockId : Nat) :
    Option (String × AgentLockState) :=
  m.find? (fun p => p.2.lockId = lockId)

/-- The sort of the waiting queue performed by `release_lock`
(`sorted(lock.waiting_queue, key=lambda r: r.priority)`; the Python sort
is the stable sort ordered by the key, modelled by the stable
`List.insertionSort`). -/
def pySortByPriority (q : List PendingLockRequest) : List PendingLockRequest :=
  q.insertionSort (fun a b => a.priority ≤ b.priority)

/-- Model of `GlobalConcurrencyManager.release_lock(lock_id)`. The `mutexHeld`
argument records whether the calling task already holds the non-reentrant
`self._locks_lock`; in that case `with self._locks_lock:` blocks forever,
modelled as `none`. -/
def releaseLockWith (mutexHeld : Bool) (s : ManagerState) (lockId : Nat) :
    Option (Bool × ManagerState) :=
  if mutexHeld then none
  else
    match findLockByIdIn s.locksByAgent lockId with
    | none => some (false, s)
    | some (key, lock) =>
      let duration := s.now - lock.acquiredAt
      let s₁ := { s with lockDurations := s.lockDurations ++ [duration],
                         waitForGraph := removeFromGraph s.waitForGraph lock.agentName }
      let s₂ :=
        match lock.waitingQueue with
        | [] =>
          { s₁ with locksByAgent := s₁.locksByAgent.filter (fun p => p.1 ≠ key) }
        | r₀ :: rest =>
          let sortedQueue := pySortByPriority (r₀ :: rest)
          let nextRequest := sortedQueue.headI
          let nextLock : AgentLockState :=
            { agentName := nextRequest.agentName, toolName := nextRequest.toolName,
              lockId := s₁.nextId, acquiredAt := s₁.now, expiresAt := none,
              priority := nextRequest.priority, ownerThreadId := none,
              retryCount := nextRequest.retryCount, waitingQueue := [],
              executionStage := .acquired }
          let s' := { s₁ with nextId := s₁.nextId + 1,
                              locksByAgent := alistUpdate s₁.locksByAgent key nextLock }
          let s'' := recordLockEvent s'
            { eventId := s'.nextId, timestamp := s'.now,
              eventType := "acquired_from_queue", agentName := nextRequest.agentName,
              toolName := nextRequest.toolName, lockId := nextLock.lockId,
              details := [("previous_lock_id", toString lockId),
                          ("queue_wait_time", toString (s'.now - nextRequest.requestedAt))] }
          { s'' with nextId := s''.nextId + 1 }
      let s₃ := recordLockEvent s₂
        { eventId := s₂.nextId, timestamp := s₂.now, eventType := "released",
          agentName := lock.agentName, toolName := lock.toolName, lockId := lockId,
          details := [("duration_seconds", toString duration)] }
      some (true, { s₃ with nextId := s₃.nextId + 1 })

/-- The public `release_lock` entry point (the caller does not yet hold
the table mutex). -/
def releaseLock (s : ManagerState) (lockId : Nat) : Option (Bool × ManagerState) :=
  releaseLockWith false s lockId

/-- Model of `GlobalConcurrencyManager.override_lock(lock_id, reason)`. The source
acquires `self._locks_lock` and, with the mutex still held, awaits
`self.release_lock(lock_id)`, which re-acquires the same non-reentrant
mutex: for a held lock the call therefore never completes (`none`). The
event-emitting continuation after that await is kept for fidelity but is
dead code. -/
def overrideLock (s : ManagerState) (lockId : Nat) (reason : String) :
    Option (Bool × ManagerState) :=
  match findLockByIdIn s.locksByAgent lockId with
  | some (_, lock) =>
    match releaseLockWith true s lockId with
    | none => none
    | some (_, s') =>
      let s'' := recordLockEvent s'
        { eventId := s'.nextId, timestamp := s'.now, eventType := "overridden",
          agentName := lock.agentName, toolName := lock.toolName, lockId := lockId,
          details := [("reason", reason)] }
      some (true, { s'' with nextId := s''.nextId + 1 })
  | none => some (false, s)

/-- The `involved_locks` computation of `resolve_deadlock` (lines
780-785): for each agent of `cycle[:-1]`, the first lock-table entry
whose `agent_name` matches, in cycle order. -/
def involvedLocksFor (m : List (String × AgentLockState)) (cycle : List String) :
    List (String × AgentLockState) :=
  cycle.dropLast.foldl
    (fun acc agent =>
      match m.find? (fun p => p.2.agentName = agent) with
      | some p => acc ++ [p]
      | none => acc)
    []

/-- The `match strategy` victim selection of `resolve_deadlock` (lines
791-804). `randomIndex` stands in for the host's random source used by
RANDOM_VICTIM. -/
def selectVictim (strategy : DeadlockResolutionStrategy)
    (involvedLocks : List (String × AgentLockState)) (randomIndex : Nat) :
    Option AgentLockState :=
  match strategy with
  | .priorityBased => (pyMaxBy (fun p => p.2.priority) involvedLocks).map (·.2)
  | .youngestFirst => (pyMaxBy (fun p => (p.2.acquiredAt : Int)) involvedLocks).map (·.2)
  | .oldestFirst => (pyMinBy (fun p => (p.2.acquiredAt : Int)) involvedLocks).map (·.2)
  | .randomVictim => (involvedLocks[randomIndex % involvedLocks.length]?).map (·.2)
  | .manualIntervention => none

/-- Model of `GlobalConcurrencyManager.resolve_deadlock(cycle, strategy,
victim_lock_id)`. -/
def resolveDeadlock (s : ManagerState) (cycle : List String)
    (strategy : DeadlockResolutionStrategy) (victimLockId : Option Nat)
    (randomIndex : Nat) : Option (Bool × ManagerState) :=
  match strategy with
  | .manualIntervention =>
    match victimLockId with
    | none => some (false, s)
    | some vid => releaseLockWith false s vid
  | _ =>
    let involvedLocks := involvedLocksFor s.locksByAgent cycle
    if involvedLocks = [] then some (false, s)
    else
      match selectVictim strategy involvedLocks randomIndex with
      | some victimLock =>
        match releaseLockWith false s victimLock.lockId with
        | none => none
        | some (_, s') =>
          let conflict : ConflictEvent :=
            { conflictId := s'.nextId, timestamp := s'.now,
              conflictType := .deadlock, involvedAgents := cycle.dropLast,
              description :=
                "Deadlock resolved using " ++ strategyValue strategy ++ " strategy",
              resolution := some (strategyValue strategy), autoResolved := true,
              resolvedAt := some s'.now }
          some (true, { recordConflictEvent s' conflict with nextId := s'.nextId + 1 })
      | none => some (false, s)

/-- Model of `GlobalConcurrencyManager.get_conflict_patterns(top_n)`. -/
def getConflictPatterns (s : ManagerState) (topN : Nat) : List ConflictPattern :=
  getHotspots s.patternState s.now topN

-- ===========================================================================
-- Concrete example states used by the claim theorems below
-- ===========================================================================

/-- The state used to refute C6 as stated: actor B waits on holder A. -/
def c6Lock : AgentLockState :=
  { agentName := "A", toolName := "T", lockId := 1, acquiredAt := 0,
    expiresAt := none, priority := 5, ownerThreadId := none, retryCount := 0,
    waitingQueue := [], executionStage := .acquired }

def c6State : ManagerState :=
  { ManagerState.init with
    locksByAgent := [("A:T", c6Lock)],
    waitForGraph := [("B", ["A"])],
    now := 5, nextId := 10 }

def c6After : ManagerState :=
  ((releaseLock c6State 1).getD (false, ManagerState.init)).2

/-- The graph used to refute C7 as stated: edges a→b, a→c, b→a, c→a,
built through `update_wait_for_graph` exactly as the manager does. -/
def c7Graph : WaitForGraph :=
  updateWaitForGraph
    (updateWaitForGraph
      (updateWaitForGraph (updateWaitForGraph [] "a" "b") "a" "c") "b" "a") "c" "a"

def c8LockA : AgentLockState :=
  { agentName := "A", toolName := "R1", lockId := 1, acquiredAt := 100,
    expiresAt := none, priority := 9, ownerThreadId := none, retryCount := 0,
    waitingQueue := [], executionStage := .acquired }

def c8LockB : AgentLockState :=
  { agentName := "B", toolName := "R2", lockId := 2, acquiredAt := 200,
    expiresAt := none, priority := 9, ownerThreadId := none, retryCount := 0,
    waitingQueue := [], executionStage := .acquired }

def c8State : ManagerState :=
  { ManagerState.init with
    locksByAgent := [("A:R1", c8LockA), ("B:R2", c8LockB)],
    now := 300, nextId := 30 }

def c8After : ManagerState :=
  ((resolveDeadlock c8State ["A", "B", "A"] .priorityBased none 0).getD
    (false, ManagerState.init)).2

def c4Waiter1 : PendingLockRequest :=
  { requestId := 11, agentName := "B", toolName := "T", priority := 5,
    requestedAt := 1, retryCount := 0, timeoutSeconds := 30 }

def c4Waiter2 : PendingLockRequest :=
  { requestId := 12, agentName := "C", toolName := "T", priority := 3,
    requestedAt := 2, retryCount := 0, timeoutSeconds := 30 }

def c4Waiter3 : PendingLockRequest :=
  { requestId := 13, agentName := "D", toolName := "T", priority := 3,
    requestedAt := 3, retryCount := 0, timeoutSeconds := 30 }

def c4Lock : AgentLockState :=
  { agentName := "A", toolName := "T", lockId := 1, acquiredAt := 0,
    expiresAt := none, priority := 5, ownerThreadId := none, retryCount := 0,
    waitingQueue := [c4Waiter1, c4Waiter2, c4Waiter3], executionStage := .acquired }

def c4State : ManagerState :=
  { ManagerState.init with
    locksByAgent := [("A:T", c4Lock)],
    waitForGraph := [("B", ["A"]), ("C", ["A"]), ("D", ["A"])],
    now := 9, nextId := 40 }

def c1Waiter1 : PendingLockRequest :=
  { requestId := 10, agentName := "B", toolName := "T", priority := 5,
    requestedAt := 1, retryCount := 0, timeoutSeconds := 30 }

def c1Waiter2 : PendingLockRequest :=
  { requestId := 11, agentName := "C", toolName := "T", priority := 5,
    requestedAt := 2, retryCount := 0, timeoutSeconds := 30 }

def c1Lock : AgentLockState :=
  { agentName := "A", toolName := "T", lockId := 1, acquiredAt := 0,
    expiresAt := none, priority := 5, ownerThreadId := none, retryCount := 0,
    waitingQueue := [c1Waiter1, c1Waiter2], executionStage := .acquired }

def c1State : ManagerState :=
  { ManagerState.init with
    locksByAgent := [("A:T", c1Lock)],
    waitForGraph := [("B", ["A"]), ("C", ["A"])],
    now := 5, nextId := 20 }

def c1After : ManagerState :=
  ((releaseLock c1State 1).getD (false, ManagerState.init)).2

def c2Held : ManagerState :=
  (acquireLock ManagerState.init "x:y" "z" 5 30 none).2

def c2Res : AcquireResult × ManagerState :=
  acquireLock c2Held "x" "y:z" 5 30 none

def c3Held : ManagerState :=
  (acquireLock ManagerState.init "A" "T" 5 30 (some 7)).2

def c3Res : AcquireResult × ManagerState :=
  acquireLock c3Held "A" "T" 5 30 (some 7)

def c5Lock : AgentLockState :=
  { agentName := "A", toolName := "T", lockId := 1, acquiredAt := 0,
    expiresAt := none, priority := 5, ownerThreadId := none, retryCount := 0,
    waitingQueue := [], executionStage := .acquired }

def c5State : ManagerState :=
  { ManagerState.init with
    locksByAgent := [("A:T", c5Lock)],
    now := 4, nextId := 9 }

def c9LockA : AgentLockState :=
  { agentName := "A", toolName := "R1", lockId := 1, acquiredAt := 10,
    expiresAt := none, priority := 4, ownerThreadId := none, retryCount := 0,
    waitingQueue := [], executionStage := .acquired }

def c9LockB : AgentLockState :=
  { agentName := "B", toolName := "R2", lockId := 2, acquiredAt := 20,
    expiresAt := none, priority := 8, ownerThreadId := none, retryCount := 0,
    waitingQueue := [], executionStage := .acquired }

def c9State : ManagerState :=
  { ManagerState.init with
    locksByAgent := [("A:R1", c9LockA), ("B:R2", c9LockB)],
    waitForGraph := [("A", ["B"]), ("B", ["A"])],
    now := 50, nextId := 60 }

def c9After : ManagerState :=
  ((resolveDeadlock c9State ["A", "B", "A"] .priorityBased none 0).getD
    (false, ManagerState.init)).2

def c10First : AcquireResult × ManagerState :=
  acquireLock ManagerState.init "a:b" "c" 5 30 none

def c10Second : AcquireResult × ManagerState :=
  acquireLock c10First.2 "a" "b:c" 5 30 none

-- ===========================================================================
-- Helper lemmas about the container primitives
-- ===========================================================================

theorem alistLookup_update_mem {κ α : Type} [DecidableEq κ]
    (m : List (κ × α)) (k : κ) (v : α) (v₀ : α) (hmem : (k, v₀) ∈ m) :
    alistLookup (alistUpdate m k v) k = some v := by
  induction m with
  | nil => cases hmem
  | cons p rest ih =>
    by_cases hk : p.1 = k
    · simp [alistLookup, alistUpdate, hk]
    · rcases List.mem_cons.mp hmem with h | h
      · exact absurd (by rw [← h]) hk
      · simpa [alistLookup, alistUpdate, hk] using ih h

theorem findLockByIdIn_mem (m : List (String × AgentLockState)) (lockId : Nat)
    (key : String) (lock : AgentLockState)
    (h : findLockByIdIn m lockId = some (key, lock)) : (key, lock) ∈ m :=
  List.mem_of_find?_eq_some h

theorem setErase_not_mem (ns : List String) (x : String) (hnd : ns.Nodup) :
    x ∉ setErase ns x := by
  induction ns with
  | nil => simp [setErase]
  | cons y ys ih =>
    rcases List.nodup_cons.mp hnd with ⟨hy, hys⟩
    by_cases hyx : y = x
    · simpa [setErase, hyx] using fun hm => hy (hyx ▸ hm)
    · intro hm
      rcases List.mem_cons.mp (by simpa [setErase, hyx] using hm) with h | h
      · exact hyx h.symm
      · exact ih hys h

theorem setErase_append_self (rs : List String) (x : String) (hx : x ∉ rs) :
    setErase (rs ++ [x]) x = rs := by
  induction rs with
  | nil => simp [setErase]
  | cons y ys ih =>
    have hyx : y ≠ x := fun h => hx (h ▸ List.mem_cons_self y ys)
    have hx' : x ∉ ys := fun h => hx (List.mem_cons_of_mem _ h)
    simp [setErase, hyx, ih hx']

theorem pyIndex_drop_head (x : String) (l : List String) (hx : x ∈ l) :
    (l.drop (pyIndex x l)).head? = some x := by
  induction l with
  | nil => cases hx
  | cons y ys ih =>
    by_cases hyx : y = x
    · simp [pyIndex, hyx]
    · have hx' : x ∈ ys := by
        rcases List.mem_cons.mp hx with h | h
        · exact absurd h.symm hyx
        · exact h
      simpa [pyIndex, hyx] using ih hx'

theorem alistLookup_cons {κ α : Type} [DecidableEq κ]
    (k : κ) (v : α) (rest : List (κ × α)) (a : κ) :
    alistLookup ((k, v) :: rest) a = if k = a then some v else alistLookup rest a := by
  by_cases h : k = a <;> simp [alistLookup, h]

theorem alistLookup_mem {κ α : Type} [DecidableEq κ]
    (m : List (κ × α)) (a : κ) (v : α) (h : alistLookup m a = some v) : (a, v) ∈ m := by
  induction m with
  | nil => simp [alistLookup] at h
  | cons p rest ih =>
    rcases p with ⟨k, w⟩
    rw [alistLookup_cons] at h
    by_cases hk : k = a
    · rw [if_pos hk] at h
      exact List.mem_cons.mpr (Or.inl (by simp_all))
    · exact List.mem_cons.mpr (Or.inr (ih (by rwa [if_neg hk] at h)))

theorem removeFromGraph_cons (k : String) (ns : List String)
    (rest : WaitForGraph) (x : String) :
    removeFromGraph ((k, ns) :: rest) x =
      if k = x then removeFromGraph rest x
      else (k, setErase ns x) :: removeFromGraph rest x := by
  by_cases h : k = x <;> simp [removeFromGraph, h]

theorem alistLookup_removeFromGraph_self (g : WaitForGraph) (x : String) :
    alistLookup (removeFromGraph g x) x = none := by
  induction g with
  | nil => simp [removeFromGraph, alistLookup]
  | cons p rest ih =>
    rcases p with ⟨k, ns⟩
    rw [removeFromGraph_cons]
    by_cases hk : k = x
    · rwa [if_pos hk]
    · rw [if_neg hk, alistLookup_cons, if_neg hk]
      exact ih

theorem alistLookup_removeFromGraph_other (g : WaitForGraph) (a x : String)
    (hax : a ≠ x) :
    alistLookup (removeFromGraph g x) a
      = (alistLookup g a).map (fun ns => setErase ns x) := by
  induction g with
  | nil => simp [removeFromGraph, alistLookup]
  | cons p rest ih =>
    rcases p with ⟨k, ns⟩
    rw [removeFromGraph_cons]
    by_cases hk : k = x
    · have hka : k ≠ a := fun h => hax (h ▸ hk : a = x)
      rw [if_pos hk, alistLookup_cons, if_neg hka, ih]
    · rw [if_neg hk, alistLookup_cons, alistLookup_cons]
      by_cases hka : k = a
      · rw [if_pos hka, if_pos hka]; rfl
      · rw [if_neg hka, if_neg hka, ih]

/-- After `remove_from_graph(x)` the graph holds no edge out of `x`. -/
theorem removeFromGraph_no_outgoing (g : WaitForGraph) (x b : String) :
    hasEdge (removeFromGraph g x) x b = false := by
  simp [hasEdge, neighborsOf, alistLookup_removeFromGraph_self]

/-- After `remove_from_graph(x)` the graph holds no edge into `x`
(provided the neighbour sets are duplicate-free, as Python sets are). -/
theorem removeFromGraph_no_incoming (g : WaitForGraph) (x a : String)
    (hnd : ∀ p ∈ g, p.2.Nodup) :
    hasEdge (removeFromGraph g x) a x = false := by
  by_cases hax : a = x
  · subst hax; exact removeFromGraph_no_outgoing g a a
  · rw [hasEdge, neighborsOf, alistLookup_removeFromGraph_other g a x hax]
    match hfind : alistLookup g a with
    | none => simp
    | some ns =>
      have hns : ns.Nodup := hnd (a, ns) (alistLookup_mem g a ns hfind)
      simpa using setErase_not_mem ns x hns

-- ===========================================================================
-- Characterization of the heads of the Python sort and of Python max/min
-- ===========================================================================

/-- The head of a stable sort is the first element of the input attaining
the minimal key: it is below every element, and everything in front of it
in the input is strictly above it. -/
theorem insertionSort_head_first_min {α : Type} (le : α → α → Prop)
    [DecidableRel le]
    (htrans : ∀ a b c, le a b → le b c → le a c)
    (htotal : ∀ a b, le a b ∨ le b a) :
    ∀ (q : List α) (r : α) (rest : List α), q.insertionSort le = r :: rest →
      ∃ pre suf, q = pre ++ r :: suf ∧ (∀ x ∈ q, le r x)
        ∧ (∀ y ∈ pre, ¬le y r) := by
  intro q
  induction q with
  | nil => intro r rest h; simp at h
  | cons a l ih =>
    intro r rest h
    simp only [List.insertionSort] at h
    cases hsl : l.insertionSort le with
    | nil =>
      have hl : l = [] :=
        List.Perm.eq_nil (by rw [← hsl]; exact (List.perm_insertionSort le l).symm)
      rw [hsl] at h
      simp only [List.orderedInsert] at h
      injection h with hra hrest
      subst hra
      refine ⟨[], l, rfl, ?_, by simp⟩
      intro x hx
      rcases List.mem_cons.mp hx with hxa | hxl
      · subst hxa
        rcases htotal x x with hc | hc <;> exact hc
      · rw [hl] at hxl; cases hxl
    | cons r' rest' =>
      rw [hsl] at h
      simp only [List.orderedInsert] at h
      obtain ⟨pre, suf, heq, hmin, hpre⟩ := ih r' rest' hsl
      by_cases har : le a r'
      · rw [if_pos har] at h
        injection h with hra hrest
        subst hra
        refine ⟨[], l, rfl, ?_, by simp⟩
        intro x hx
        rcases List.mem_cons.mp hx with hxa | hxl
        · subst hxa
          rcases htotal x x with hc | hc <;> exact hc
        · exact htrans _ _ _ har (hmin x hxl)
      · rw [if_neg har] at h
        injection h with hra hrest
        refine ⟨a :: pre, suf, by rw [List.cons_append, heq, hra], ?_, ?_⟩
        · intro x hx
          rcases List.mem_cons.mp hx with hxa | hxl
          · rw [hxa, ← hra]
            rcases htotal a r' with hc | hc
            · exact absurd hc har
            · exact hc
          · rw [← hra]
            exact hmin x hxl
        · intro y hy
          rcases List.mem_cons.mp hy with hya | hyl
          · rw [hya, ← hra]
            exact har
          · rw [← hra]
            exact hpre y hyl

/-- Python `max(l, key := f)` returns the first maximal element: every
element of the list is keyed at most as high, and everything in front of
the champion is keyed strictly lower. -/
theorem pyMaxBy_first_max {α : Type} (key : α → Int) (l : List α) (m : α)
    (h : pyMaxBy key l = some m) :
    ∃ pre suf, l = pre ++ m :: suf ∧ (∀ x ∈ l, key x ≤ key m)
      ∧ (∀ y ∈ pre, key y < key m) := by
  have main : ∀ (xs : List α) (b : α),
      ∃ pre suf, b :: xs = pre ++ (xs.foldl (fun best y => if key best < key y then y else best) b) :: suf
        ∧ (∀ x ∈ b :: xs, key x ≤ key (xs.foldl (fun best y => if key best < key y then y else best) b))
        ∧ ∀ y ∈ pre, key y < key (xs.foldl (fun best y => if key best < key y then y else best) b) := by
    intro xs
    induction xs with
    | nil =>
      intro b
      exact ⟨[], [], rfl, by simp, by simp⟩
    | cons x xs ih =>
      intro b
      by_cases hbx : key b < key x
      · obtain ⟨pre, suf, heq, hall, hpre⟩ := ih x
        refine ⟨b :: pre, suf, ?_, ?_, ?_⟩
        · rw [List.foldl_cons, if_pos hbx, List.cons_append, heq]
        · intro z hz
          rw [List.foldl_cons, if_pos hbx]
          rcases List.mem_cons.mp hz with hzb | hz'
          · rw [hzb]
            exact le_of_lt (lt_of_lt_of_le hbx (hall x (List.mem_cons_self x xs)))
          · exact hall z hz'
        · intro y hy
          rw [List.foldl_cons, if_pos hbx]
          rcases List.mem_cons.mp hy with hyb | hy'
          · rw [hyb]
            exact lt_of_lt_of_le hbx (hall x (List.mem_cons_self x xs))
          · exact hpre y hy'
      · obtain ⟨pre, suf, heq, hall, hpre⟩ := ih b
        rcases pre with _ | ⟨p, pre'⟩
        · -- the champion is b itself, sitting in front of the processed tail
          refine ⟨[], x :: xs, ?_, ?_, by simp⟩
          · rw [List.foldl_cons, if_neg hbx, List.nil_append]
            rw [List.nil_append] at heq
            injection heq with h₁ h₂
            rw [← h₁]
          · intro z hz
            rw [List.foldl_cons, if_neg hbx]
            rcases List.mem_cons.mp hz with hzb | hz'
            · rw [hzb]; exact hall b (List.mem_cons_self b xs)
            · rcases List.mem_cons.mp hz' with hzx | hzxs
              · rw [hzx]
                exact le_trans (le_of_not_lt hbx) (hall b (List.mem_cons_self b xs))
              · exact hall z (List.mem_cons_of_mem b hzxs)
        · rw [List.cons_append] at heq
          injection heq with h₁ h₂
          refine ⟨b :: x :: pre', suf, ?_, ?_, ?_⟩
          · rw [List.foldl_cons, if_neg hbx, List.cons_append, List.cons_append, ← h₂]
          · intro z hz
            rw [List.foldl_cons, if_neg hbx]
            rcases List.mem_cons.mp hz with hzb | hz'
            · rw [hzb]; exact hall b (List.mem_cons_self b xs)
            · rcases List.mem_cons.mp hz' with hzx | hzxs
              · rw [hzx]
                exact le_trans (le_of_not_lt hbx) (hall b (List.mem_cons_self b xs))
              · exact hall z (List.mem_cons_of_mem b hzxs)
          · intro y hy
            rw [List.foldl_cons, if_neg hbx]
            have hb : b ∈ p :: pre' := by rw [h₁]; exact List.mem_cons_self p pre'
            rcases List.mem_cons.mp hy with hyb | hy'
            · rw [hyb]
              exact hpre b hb
            · rcases List.mem_cons.mp hy' with hyx | hyp
              · rw [hyx]
                exact lt_of_le_of_lt (le_of_not_lt hbx) (hpre b hb)
              · exact hpre y (List.mem_cons_of_mem p hyp)
  match l, h with
  | x :: xs, h =>
    have hm : xs.foldl (fun best y => if key best < key y then y else best) x = m := by
      simpa [pyMaxBy] using h
    obtain ⟨pre, suf, heq, hall, hpre⟩ := main xs x
    rw [hm] at heq hall hpre
    exact ⟨pre, suf, heq, fun z hz => hall z hz, hpre⟩

-- ===========================================================================
-- Invariants of the detect_cycles DFS
-- ===========================================================================

theorem head?_append_of_some {α : Type} (l₁ l₂ : List α) (x : α)
    (h : l₁.head? = some x) : (l₁ ++ l₂).head? = some x := by
  cases l₁ <;> simp_all

theorem DfsPost_refl (st : DfsState) (hinv : DfsInv st) : DfsPost st st false :=
  ⟨hinv, fun _ hx => hx, fun _ => ⟨rfl, rfl, rfl⟩⟩

theorem DfsPost_comp {s₀ s₁ s₂ : DfsState} {b : Bool}
    (h₁ : DfsPost s₀ s₁ false) (h₂ : DfsPost s₁ s₂ b) : DfsPost s₀ s₂ b := by
  refine ⟨h₂.1, fun x hx => h₂.2.1 x (h₁.2.1 x hx), fun hb => ?_⟩
  obtain ⟨p₂, r₂, c₂⟩ := h₂.2.2 hb
  obtain ⟨p₁, r₁, c₁⟩ := h₁.2.2 rfl
  exact ⟨p₂.trans p₁, r₂.trans r₁, c₂.trans c₁⟩

theorem foldl_step_true (f : Bool × DfsState → String → Bool × DfsState)
    (hTrue : ∀ st n, f (true, st) n = (true, st)) :
    ∀ (ns : List String) (st : DfsState), ns.foldl f (true, st) = (true, st) := by
  intro ns
  induction ns with
  | nil => intro st; rfl
  | cons n rest ih => intro st; rw [List.foldl_cons, hTrue]; exact ih st

theorem foldl_step_post (f : Bool × DfsState → String → Bool × DfsState)
    (hTrue : ∀ st n, f (true, st) n = (true, st))
    (hStep : ∀ st n, DfsInv st → DfsPost st (f (false, st) n).2 (f (false, st) n).1) :
    ∀ (ns : List String) (st : DfsState), DfsInv st →
      DfsPost st (ns.foldl f (false, st)).2 (ns.foldl f (false, st)).1 := by
  intro ns
  induction ns with
  | nil => intro st hinv; exact DfsPost_refl st hinv
  | cons n rest ih =>
    intro st hinv
    rw [List.foldl_cons]
    have hpost := hStep st n hinv
    rcases hf : f (false, st) n with ⟨b₁, st₁⟩
    rw [hf] at hpost
    cases b₁ with
    | true =>
      rw [foldl_step_true f hTrue rest st₁]
      exact ⟨hpost.1, hpost.2.1, by simp⟩
    | false =>
      exact DfsPost_comp hpost (ih st₁ hpost.1)

theorem dfs_post (g : WaitForGraph) :
    ∀ (fuel : Nat) (node : String) (st : DfsState), DfsInv st → node ∉ st.visited →
      DfsPost st (dfs g fuel node st).2 (dfs g fuel node st).1 := by
  intro fuel
  induction fuel with
  | zero =>
    intro node st hinv hnv
    exact DfsPost_refl st hinv
  | succ fuel ih =>
    intro node st hinv hnv
    have hnr : node ∉ st.recStack := fun h => hnv (hinv.2.2 node h)
    have hinv₁ : DfsInv { st with visited := setAdd st.visited node,
                                  recStack := setAdd st.recStack node,
                                  path := st.path ++ [node] } := by
      refine ⟨hinv.1, ?_, ?_⟩
      · intro x hx
        simp only at hx ⊢
        unfold setAdd at hx
        rw [if_neg hnr] at hx
        rcases List.mem_append.mp hx with hxs | hxn
        · exact List.mem_append.mpr (Or.inl (hinv.2.1 x hxs))
        · exact List.mem_append.mpr (Or.inr hxn)
      · intro x hx
        simp only at hx ⊢
        unfold setAdd at hx ⊢
        rw [if_neg hnr] at hx
        rw [if_neg hnv]
        rcases List.mem_append.mp hx with hxs | hxn
        · exact List.mem_append.mpr (Or.inl (hinv.2.2 x hxs))
        · exact List.mem_append.mpr (Or.inr hxn)
    have hStep : ∀ st' n, DfsInv st' →
        DfsPost st'
          ((fun (acc : Bool × DfsState) n =>
            if acc.1 then acc
            else if n ∉ acc.2.visited then dfs g fuel n acc.2
            else if n ∈ acc.2.recStack then
              (true, { acc.2 with
                       cycles := acc.2.cycles
                         ++ [acc.2.path.drop (pyIndex n acc.2.path) ++ [n]] })
            else (false, acc.2)) (false, st') n).2
          ((fun (acc : Bool × DfsState) n =>
            if acc.1 then acc
            else if n ∉ acc.2.visited then dfs g fuel n acc.2
            else if n ∈ acc.2.recStack then
              (true, { acc.2 with
                       cycles := acc.2.cycles
                         ++ [acc.2.path.drop (pyIndex n acc.2.path) ++ [n]] })
            else (false, acc.2)) (false, st') n).1 := by
      intro st' n hinv'
      simp only [Bool.false_eq_true, if_false]
      by_cases hv : n ∈ st'.visited
      · rw [if_neg (by simpa using hv)]
        by_cases hr : n ∈ st'.recStack
        · rw [if_pos hr]
          have hpath : n ∈ st'.path := hinv'.2.1 n hr
          refine ⟨⟨?_, hinv'.2.1, hinv'.2.2⟩, fun x hx => hx, by simp⟩
          intro c hc
          rcases List.mem_append.mp hc with hcs | hcnew
          · exact hinv'.1 c hcs
          · have hceq : c = st'.path.drop (pyIndex n st'.path) ++ [n] := by
              simpa using hcnew
            subst hceq
            refine ⟨by simp, ?_⟩
            rw [List.getLast?_concat]
            exact head?_append_of_some _ _ n (pyIndex_drop_head n st'.path hpath)
        · rw [if_neg hr]
          exact DfsPost_refl st' hinv'
      · rw [if_pos (by simpa using hv)]
        exact ih n st' hinv' hv
    have hTrue : ∀ st' n,
        (fun (acc : Bool × DfsState) n =>
          if acc.1 then acc
          else if n ∉ acc.2.visited then dfs g fuel n acc.2
          else if n ∈ acc.2.recStack then
            (true, { acc.2 with
                     cycles := acc.2.cycles
                       ++ [acc.2.path.drop (pyIndex n acc.2.path) ++ [n]] })
          else (false, acc.2)) (true, st') n = (true, st') := by
      intro st' n; rfl
    have hfold := foldl_step_post
      (fun (acc : Bool × DfsState) n =>
        if acc.1 then acc
        else if n ∉ acc.2.visited then dfs g fuel n acc.2
        else if n ∈ acc.2.recStack then
          (true, { acc.2 with
                   cycles := acc.2.cycles
                     ++ [acc.2.path.drop (pyIndex n acc.2.path) ++ [n]] })
        else (false, acc.2))
      hTrue hStep (neighborsOf g node)
      { st with visited := setAdd st.visited node,
                recStack := setAdd st.recStack node,
                path := st.path ++ [node] } hinv₁
    rcases hres : (neighborsOf g node).foldl
        (fun (acc : Bool × DfsState) n =>
          if acc.1 then acc
          else if n ∉ acc.2.visited then dfs g fuel n acc.2
          else if n ∈ acc.2.recStack then
            (true, { acc.2 with
                     cycles := acc.2.cycles
                       ++ [acc.2.path.drop (pyIndex n acc.2.path) ++ [n]] })
          else (false, acc.2))
        (false, { st with visited := setAdd st.visited node,
                          recStack := setAdd st.recStack node,
                          path := st.path ++ [node] }) with ⟨b, st₂⟩
    rw [hres] at hfold
    have hdfseq : dfs g (fuel + 1) node st =
        if b then (true, st₂)
        else (false, { st₂ with path := st₂.path.dropLast,
                                recStack := setErase st₂.recStack node }) := by
      show (let st₁ : DfsState :=
              { st with visited := setAdd st.visited node,
                        recStack := setAdd st.recStack node,
                        path := st.path ++ [node] }
            let res := (neighborsOf g node).foldl
              (fun (acc : Bool × DfsState) n =>
                if acc.1 then acc
                else if n ∉ acc.2.visited then dfs g fuel n acc.2
                else if n ∈ acc.2.recStack then
                  (true, { acc.2 with
                           cycles := acc.2.cycles
                             ++ [acc.2.path.drop (pyIndex n acc.2.path) ++ [n]] })
                else (false, acc.2))
              (false, st₁)
            if res.1 then (true, res.2)
            else (false, { res.2 with path := res.2.path.dropLast,
                                      recStack := setErase res.2.recStack node })) = _
      simp only [hres]
    rw [hdfseq]
    have hvisited : ∀ x ∈ st.visited, x ∈ st₂.visited := by
      intro x hx
      apply hfold.2.1
      simp only
      unfold setAdd
      rw [if_neg hnv]
      exact List.mem_append.mpr (Or.inl hx)
    cases b with
    | true =>
      rw [if_pos rfl]
      exact ⟨hfold.1, hvisited, by simp⟩
    | false =>
      rw [if_neg (by simp)]
      obtain ⟨hp, hrr, hcy⟩ := hfold.2.2 rfl
      have hpath₂ : st₂.path.dropLast = st.path := by
        rw [hp]; simp
      have hrec₂ : setErase st₂.recStack node = st.recStack := by
        rw [hrr]
        show setErase (setAdd st.recStack node) node = st.recStack
        unfold setAdd
        rw [if_neg hnr]
        exact setErase_append_self st.recStack node hnr
      refine ⟨⟨?_, ?_, ?_⟩, hvisited, fun _ => ⟨hpath₂, hrec₂, hcy⟩⟩
      · show cyclesWellFormed st₂.cycles
        rw [hcy]; exact hinv.1
      · intro x hx
        simp only at hx ⊢
        rw [hrec₂] at hx
        rw [hpath₂]
        exact hinv.2.1 x hx
      · intro x hx
        simp only at hx
        rw [hrec₂] at hx
        exact hvisited x (hinv.2.2 x hx)

/-- C7 (amended). Every entry emitted by `detect_cycles` is nonempty and
has its first (grey) node duplicated at the end, and the pure detection
leaves the graph untouched; but detection is NOT complete: at most one
entry is emitted per outer DFS invocation, reachable cycles can be
missed, and, because `path`/`rec_stack` are not cleaned up when the DFS
returns early, later entries need not be genuine cycles. -/
theorem c7_cycle_shape (g : WaitForGraph) :
    ∀ c ∈ detectCycles g, c ≠ [] ∧ c.head? = c.getLast? := by
  have hfold : ∀ (nodes : List String) (st : DfsState), DfsInv st →
      DfsInv (nodes.foldl
        (fun st node => if node ∈ st.visited then st else (dfs g (dfsFuel g) node st).2)
        st) := by
    intro nodes
    induction nodes with
    | nil => intro st hinv; simpa using hinv
    | cons node rest ih =>
      intro st hinv
      rw [List.foldl_cons]
      by_cases hv : node ∈ st.visited
      · rw [if_pos hv]; exact ih st hinv
      · rw [if_neg hv]
        exact ih _ (dfs_post g (dfsFuel g) node st hinv hv).1
  intro c hc
  have hinv₀ : DfsInv { visited := [], recStack := [], path := [], cycles := [] } := by
    refine ⟨?_, ?_, ?_⟩
    · intro c hc; cases hc
    · intro x hx; cases hx
    · intro x hx; cases hx
  simp only [detectCycles] at hc
  exact (hfold (g.map (·.1)) _ hinv₀).1 c hc

-- ===========================================================================
-- Shape of release_lock in the found case
-- ===========================================================================

theorem releaseLock_graph (s : ManagerState) (lockId : Nat) (key : String)
    (lock : AgentLockState)
    (hfind : findLockByIdIn s.locksByAgent lockId = some (key, lock)) :
    ∃ s', releaseLock s lockId = some (true, s') ∧
      s'.waitForGraph = removeFromGraph s.waitForGraph lock.agentName := by
  simp only [releaseLock, releaseLockWith, Bool.false_eq_true, if_false, hfind]
  cases hq : lock.waitingQueue with
  | nil => simp only [hq]; exact ⟨_, rfl, rfl⟩
  | cons r₀ rest => simp only [hq]; exact ⟨_, rfl, rfl⟩

theorem releaseLock_promote (s : ManagerState) (lockId : Nat) (key : String)
    (lock : AgentLockState) (r₀ : PendingLockRequest) (rest : List PendingLockRequest)
    (hfind : findLockByIdIn s.locksByAgent lockId = some (key, lock))
    (hq : lock.waitingQueue = r₀ :: rest) :
    ∃ s' nl, releaseLock s lockId = some (true, s') ∧
      s'.locksByAgent = alistUpdate s.locksByAgent key nl ∧
      nl.agentName = ((pySortByPriority (r₀ :: rest)).headI).agentName ∧
      nl.toolName = ((pySortByPriority (r₀ :: rest)).headI).toolName ∧
      nl.priority = ((pySortByPriority (r₀ :: rest)).headI).priority ∧
      nl.waitingQueue = [] := by
  simp only [releaseLock, releaseLockWith, Bool.false_eq_true, if_false, hfind]
  simp only [hq]
  exact ⟨_, _, rfl, rfl, rfl, rfl, rfl, rfl⟩

-- ===========================================================================
-- C4
-- ===========================================================================

/-- C4. Promotion order: whenever `release_lock` finds the lock and its
waiter queue is non-empty (and, as in every reachable state, the queue is
ordered by arrival time), the waiter promoted into the slot is one of the
queued requests, carries the numerically smallest priority of the queue,
and among the waiters of that priority has the smallest `requested_at`
(FIFO within the priority class, by stability of the sort). -/
theorem c4_promotion_order (s : ManagerState) (lockId : Nat) (key : String)
    (lock : AgentLockState)
    (hfind : findLockByIdIn s.locksByAgent lockId = some (key, lock))
    (hne : lock.waitingQueue ≠ [])
    (hfifo : List.Pairwise (fun a b => a.requestedAt ≤ b.requestedAt) lock.waitingQueue) :
    ∃ s' nl, releaseLock s lockId = some (true, s') ∧
      alistLookup s'.locksByAgent key = some nl ∧
      ∃ r, r ∈ lock.waitingQueue ∧
        nl.agentName = r.agentName ∧ nl.toolName = r.toolName ∧
        nl.priority = r.priority ∧
        (∀ x ∈ lock.waitingQueue, r.priority ≤ x.priority) ∧
        (∀ x ∈ lock.waitingQueue, x.priority = r.priority →
          r.requestedAt ≤ x.requestedAt) := by
  rcases hql : lock.waitingQueue with _ | ⟨r₀, rest⟩
  · exact absurd hql hne
  · obtain ⟨s', nl, hrel, hlocks, hn1, hn2, hn3, _⟩ :=
      releaseLock_promote s lockId key lock r₀ rest hfind hql
    have hlen : (pySortByPriority (r₀ :: rest)).length = rest.length + 1 := by
      unfold pySortByPriority
      rw [(List.perm_insertionSort (fun a b => a.priority ≤ b.priority)
        (r₀ :: rest)).length_eq]
      simp
    obtain ⟨r, rs₂, hsort⟩ : ∃ r rs₂, pySortByPriority (r₀ :: rest) = r :: rs₂ := by
      cases hs : pySortByPriority (r₀ :: rest) with
      | nil => rw [hs] at hlen; simp at hlen
      | cons a b => exact ⟨a, b, rfl⟩
    have hsort' : (r₀ :: rest).insertionSort (fun a b => a.priority ≤ b.priority)
        = r :: rs₂ := by
      rw [← hsort]; rfl
    obtain ⟨pre, suf, heqq, hmin, hpre⟩ :=
      insertionSort_head_first_min (fun a b => a.priority ≤ b.priority)
        (fun a b c hab hbc => le_trans hab hbc)
        (fun a b => le_total a.priority b.priority)
        (r₀ :: rest) r rs₂ hsort'
    refine ⟨s', nl, hrel, ?_, r, ?_, ?_, ?_, ?_, ?_, ?_⟩
    · rw [hlocks]
      exact alistLookup_update_mem s.locksByAgent key nl lock
        (findLockByIdIn_mem s.locksByAgent lockId key lock hfind)
    · rw [heqq]
      exact List.mem_append.mpr (Or.inr (List.mem_cons_self r suf))
    · rw [hn1, hsort]; rfl
    · rw [hn2, hsort]; rfl
    · rw [hn3, hsort]; rfl
    · intro x hx
      exact hmin x hx
    · intro x hx hxp
      rw [hql, heqq] at hfifo
      rw [heqq] at hx
      rcases List.mem_append.mp hx with hxpre | hxcons
      · exact absurd (le_of_eq hxp) (hpre x hxpre)
      · rcases List.mem_cons.mp hxcons with hxr | hxsuf
        · rw [hxr]
        · obtain ⟨-, hr₂, -⟩ := List.pairwise_append.mp hfifo
          exact (List.pairwise_cons.mp hr₂).1 x hxsuf

-- ===========================================================================
-- C6
-- ===========================================================================

/-- C6 (amended). On `release_lock`, the holder is removed from the
Wait-For Graph entirely by `remove_from_graph`: afterwards the graph
holds no edge out of the holder and also no edge into the holder —
incoming edges from still-queued waiters do NOT remain, contrary to the
claim. (The `hnd` hypothesis records that neighbour sets are
duplicate-free, as Python sets are.) -/
theorem c6_release_removes_all_edges (s : ManagerState) (lockId : Nat)
    (key : String) (lock : AgentLockState)
    (hfind : findLockByIdIn s.locksByAgent lockId = some (key, lock))
    (hnd : ∀ p ∈ s.waitForGraph, p.2.Nodup) :
    ∃ s', releaseLock s lockId = some (true, s') ∧
      (∀ b, hasEdge s'.waitForGraph lock.agentName b = false) ∧
      (∀ a, hasEdge s'.waitForGraph a lock.agentName = false) := by
  obtain ⟨s', hrel, hgraph⟩ := releaseLock_graph s lockId key lock hfind
  refine ⟨s', hrel, ?_, ?_⟩
  · intro b
    rw [hgraph]
    exact removeFromGraph_no_outgoing s.waitForGraph lock.agentName b
  · intro a
    rw [hgraph]
    exact removeFromGraph_no_incoming s.waitForGraph lock.agentName a hnd

/-- C6 (counterexample). Before the release the incoming edge `B → A`
exists; `release_lock` of the lock held by A erases it, so the claim
that edges pointing at the holder remain is false on this input. -/
theorem c6_counterexample :
    hasEdge c6State.waitForGraph "B" "A" = true ∧
    releaseLock c6State 1 = some (true, c6After) ∧
    hasEdge c6After.waitForGraph "B" "A" = false := by decide

/-- Witness for the amended C6 theorem at a concrete state. -/
theorem c6_release_removes_all_edges_witness :
    ∃ s', releaseLock c6State 1 = some (true, s') ∧
      (∀ b, hasEdge s'.waitForGraph c6Lock.agentName b = false) ∧
      (∀ a, hasEdge s'.waitForGraph a c6Lock.agentName = false) :=
  c6_release_removes_all_edges c6State 1 "A:T" c6Lock (by decide)
    (by decide)

-- ===========================================================================
-- C7
-- ===========================================================================

/-- C7 (counterexample). The graph holds the genuine cycle a→c→a, yet
neither of its presentations appears in the `detect_cycles` output; the
output instead also carries `["a","b","c","a"]`, which is not a cycle of
the graph (there is no edge b→c). So "all reachable cycles are reported"
is false on this input. -/
theorem c7_counterexample :
    c7Graph = [("a", ["b", "c"]), ("b", ["a"]), ("c", ["a"])] ∧
    hasEdge c7Graph "a" "c" = true ∧
    hasEdge c7Graph "c" "a" = true ∧
    detectCycles c7Graph = [["a", "b", "a"], ["a", "b", "c", "a"]] ∧
    (["a", "c", "a"] : List String) ∉ detectCycles c7Graph ∧
    (["c", "a", "c"] : List String) ∉ detectCycles c7Graph ∧
    hasEdge c7Graph "b" "c" = false := by decide

/-- Witness for the amended C7 theorem at a concrete graph and entry. -/
theorem c7_cycle_shape_witness :
    (["a", "b", "a"] : List String) ≠ [] ∧
      (["a", "b", "a"] : List String).head? = (["a", "b", "a"] : List String).getLast? :=
  c7_cycle_shape c7Graph ["a", "b", "a"] (by decide)

-- ===========================================================================
-- C8
-- ===========================================================================

/-- C8 (amended). Under PRIORITY_BASED the selected victim carries the
numerically largest priority of the locks involved in the cycle, and
among equal-priority locks it is the FIRST one in cycle order (Python
`max` keeps the first maximal element); `acquired_at` plays no role in
the tie-break, contrary to the claim. -/
theorem c8_priority_victim (involvedLocks : List (String × AgentLockState))
    (ri : Nat) (v : AgentLockState)
    (h : selectVictim .priorityBased involvedLocks ri = some v) :
    ∃ pre p suf, involvedLocks = pre ++ p :: suf ∧ p.2 = v ∧
      (∀ x ∈ involvedLocks, x.2.priority ≤ v.priority) ∧
      (∀ y ∈ pre, y.2.priority < v.priority) := by
  unfold selectVictim at h
  cases hpm : pyMaxBy (fun p => p.2.priority) involvedLocks with
  | none => rw [hpm] at h; simp at h
  | some m =>
    rw [hpm] at h
    have hmv : m.2 = v := by simpa using h
    obtain ⟨pre, suf, heq, hall, hpre⟩ :=
      pyMaxBy_first_max (fun p => p.2.priority) involvedLocks m hpm
    exact ⟨pre, m, suf, heq, hmv, fun x hx => hmv ▸ hall x hx,
      fun y hy => hmv ▸ hpre y hy⟩

/-- C8 (counterexample). Both involved locks share the maximal priority
9; the lock of A is strictly older (acquired_at 100 < 200), yet
`resolve_deadlock` selects and releases the lock of A, the first one in
cycle order — not the youngest as the claim requires. -/
theorem c8_counterexample :
    involvedLocksFor c8State.locksByAgent ["A", "B", "A"]
      = [("A:R1", c8LockA), ("B:R2", c8LockB)] ∧
    c8LockA.priority = c8LockB.priority ∧
    c8LockA.acquiredAt < c8LockB.acquiredAt ∧
    selectVictim .priorityBased
      (involvedLocksFor c8State.locksByAgent ["A", "B", "A"]) 0 = some c8LockA ∧
    resolveDeadlock c8State ["A", "B", "A"] .priorityBased none 0
      = some (true, c8After) ∧
    findLockByIdIn c8After.locksByAgent 1 = none ∧
    findLockByIdIn c8After.locksByAgent 2 = some ("B:R2", c8LockB) := by decide

/-- Witness for the amended C8 theorem at a concrete involved-lock list. -/
theorem c8_priority_victim_witness :
    ∃ pre p suf,
      [("A:R1", c8LockA), ("B:R2", c8LockB)] = pre ++ p :: suf ∧ p.2 = c8LockA ∧
      (∀ x ∈ [("A:R1", c8LockA), ("B:R2", c8LockB)], x.2.priority ≤ c8LockA.priority) ∧
      (∀ y ∈ pre, y.2.priority < c8LockA.priority) :=
  c8_priority_victim [("A:R1", c8LockA), ("B:R2", c8LockB)] 0 c8LockA (by decide)

-- ===========================================================================
-- C4 witness state
-- ===========================================================================

/-- Witness for the C4 theorem: on a concrete queue (priorities 5, 3, 3
with arrival times 1, 2, 3) the promoted waiter is the priority-3 request
that arrived first. -/
theorem c4_promotion_order_witness :
    ∃ s' nl, releaseLock c4State 1 = some (true, s') ∧
      alistLookup s'.locksByAgent "A:T" = some nl ∧
      ∃ r, r ∈ c4Lock.waitingQueue ∧
        nl.agentName = r.agentName ∧ nl.toolName = r.toolName ∧
        nl.priority = r.priority ∧
        (∀ x ∈ c4Lock.waitingQueue, r.priority ≤ x.priority) ∧
        (∀ x ∈ c4Lock.waitingQueue, x.priority = r.priority →
          r.requestedAt ≤ x.requestedAt) :=
  c4_promotion_order c4State 1 "A:T" c4Lock (by decide) (by decide)
    (by decide)

-- ===========================================================================
-- C1
-- ===========================================================================

/-- C1 (code evaluated at the failing input). A lock with two queued
waiters (B then C) is released: B is promoted, but the new lock is
created with `waiting_queue=[]`, so the pending request of C is dropped
from every queue of the table — queue inheritance does not happen. -/
theorem c1_waiter_dropped :
    releaseLock c1State 1 = some (true, c1After) ∧
    c1Waiter2 ∈ c1Lock.waitingQueue ∧
    c1After.locksByAgent.map (fun p => (p.1, p.2.agentName, p.2.waitingQueue))
      = [("A:T", "B", [])] ∧
    (∀ p ∈ c1After.locksByAgent, c1Waiter2 ∉ p.2.waitingQueue) := by decide

-- ===========================================================================
-- C2
-- ===========================================================================

/-- C2 (code evaluated at the failing input). While the key `x:y:z` is
held by actor `x:y`, actor `x` calls acquire with a 30-unit timeout: the
request is appended to the waiter queue and the wait edge is added, but
the call raises the timeout error immediately (the state clock has not
advanced) instead of suspending until promotion or deadline. -/
theorem c2_no_suspension :
    c2Res.1 = .timeoutError "Lock x:y:z is already held" ∧
    (alistLookup c2Res.2.locksByAgent "x:y:z").map
      (fun l => (l.agentName, l.waitingQueue.map (fun r => r.agentName)))
      = some ("x:y", ["x"]) ∧
    hasEdge c2Res.2.waitForGraph "x" "x:y" = true ∧
    c2Res.2.now = c2Held.now := by decide

-- ===========================================================================
-- C3
-- ===========================================================================

/-- C3 (code evaluated at the failing input). A second acquire by the
same `(actor, resource)` with the same owner tag is not rejected with
ReentrantDenied (the source has no such error and never consults the
owner tag): it enqueues the caller behind itself, adds the self-loop
`A → A` to the Wait-For Graph, and raises the timeout error. -/
theorem c3_reentrant_self_queue :
    c3Res.1 = .timeoutError "Lock A:T is already held" ∧
    (alistLookup c3Res.2.locksByAgent "A:T").map
      (fun l => (l.agentName, l.waitingQueue.map (fun r => r.agentName)))
      = some ("A", ["A"]) ∧
    hasEdge c3Res.2.waitForGraph "A" "A" = true := by decide

-- ===========================================================================
-- C5
-- ===========================================================================

/-- C5 (code evaluated at the failing input). Overriding a held lock
diverges: `override_lock` holds the non-reentrant table mutex while it
awaits `release_lock`, which re-acquires the same mutex, so the call
never completes and emits no OVERRIDDEN (nor RELEASED) event at all;
overriding an unknown lock id returns false without emitting anything. -/
theorem c5_override_diverges :
    findLockByIdIn c5State.locksByAgent 1 = some ("A:T", c5Lock) ∧
    overrideLock c5State 1 "maintenance" = none ∧
    overrideLock c5State 99 "maintenance" = some (false, c5State) := by decide

-- ===========================================================================
-- C9
-- ===========================================================================

/-- C9 (code evaluated at the failing input). Resolving a deadlock
records a conflict event, but the Conflict Pattern tracker is never fed:
`record_conflict` has no caller in the module, so the pair→count matrix
stays empty and the patterns query returns no hotspot for the conflict
that just occurred. -/
theorem c9_patterns_not_fed :
    resolveDeadlock c9State ["A", "B", "A"] .priorityBased none 0
      = some (true, c9After) ∧
    c9After.conflictHistory.map (fun c => (c.conflictType, c.autoResolved))
      = [(.deadlock, true)] ∧
    c9After.patternState = c9State.patternState ∧
    c9After.patternState.conflictMatrix = [] ∧
    getConflictPatterns c9After 10 = [] := by decide

-- ===========================================================================
-- C10
-- ===========================================================================

/-- C10. The Lock Table key is the bare concatenation
`agent_name ++ ":" ++ tool_name`, so the distinct pairs ("a:b", "c") and
("a", "b:c") collide on the key "a:b:c": after the first acquire
succeeds, the second is treated as contention on the same held lock —
it is enqueued as a waiter behind holder "a:b" and no second lock is
created. -/
theorem c10_key_collision :
    lockKey "a:b" "c" = lockKey "a" "b:c" ∧
    c10First.1 = .ok 1 ∧
    c10Second.1 = .timeoutError "Lock a:b:c is already held" ∧
    c10Second.2.locksByAgent.length = 1 ∧
    (alistLookup c10Second.2.locksByAgent "a:b:c").map
      (fun l => (l.agentName, l.waitingQueue.map (fun r => r.agentName)))
      = some ("a:b", ["a"]) := by decide
